import Mathlib

/- Verification of pybone (src/pybone.py), a trombone slide-position optimizer.

   The Python source is embedded shallowly:
   * floats are modelled as exact reals (`ℝ`), `math.log2 x` as `Real.logb 2 x`,
     and `a ** b` as `Real.rpow`;
   * Python's built-in `round` (round half to even) is modelled by `pyRound`;
   * Python's `%` and `//` on integers (floor-style, nonnegative remainder for a
     positive modulus) are modelled by `Int.emod` and `Int.ediv`;
   * functions that can raise are modelled in `Except PyErr`;
   * the `networkx` shortest-path call is modelled by its documented contract:
     it returns a minimum-total-weight path from START to END (see
     `solveLayered`).
-/

namespace Pybone

/-- Python's built-in `round`: round half to even (banker's rounding).
Used by `Pitch.from_semitones` (pybone.py line 100) and by the
`round_positions` post-pass (lines 247, 296, 329, 362). -/
noncomputable def pyRound (x : ℝ) : ℤ :=
  if Int.fract x < 1 / 2 then ⌊x⌋
  else if 1 / 2 < Int.fract x then ⌊x⌋ + 1
  else if Even ⌊x⌋ then ⌊x⌋ else ⌊x⌋ + 1

/-- `SEMITONES_PER_OCTAVE` (pybone.py line 34). -/
def SEMITONES_PER_OCTAVE : ℤ := 12

/-- `A440_SEMITONES = A440_NOTE.value + SEMITONES_PER_OCTAVE * A440_OCTAVE`
(pybone.py line 38): `Note.A.value = 9`, `A440_OCTAVE = 4`, so 57. -/
def A440_SEMITONES : ℤ := 9 + 12 * 4

/-- `A440_HERTZ` (pybone.py line 37). -/
def A440_HERTZ : ℤ := 440

/-- The `Pitch` class (pybone.py lines 41-116).  `note` is the `Note` enum's
value, an integer 0-11 for pitches built through the enum (`__eq__` compares
`note`, `octave` and `offset` and ignores `name`, so `name` is not modelled;
the 0-11 range is not enforced by the dataclass and is carried as a hypothesis
where a claim needs it). -/
structure Pitch where
  note : ℤ
  octave : ℤ
  offset : ℝ

namespace Pitch

/-- `Pitch.get_semitones` (pybone.py lines 74-76). -/
noncomputable def get_semitones (p : Pitch) : ℝ :=
  ((p.note : ℝ) + (p.octave : ℝ) * 12 + p.offset) - 57

/-- `Pitch.from_semitones` (pybone.py lines 97-105): round to the nearest
integer semitone, split into note (mod 12) and octave (floor-div 12), and keep
the rounding remainder as the `offset`. -/
noncomputable def from_semitones (s : ℝ) : Pitch :=
  let note_semitones : ℝ := s + 57
  let rounded : ℤ := pyRound note_semitones
  { note := Int.emod rounded 12
    octave := Int.ediv rounded 12
    offset := note_semitones - (rounded : ℝ) }

/-- `Pitch.get_hertz` (pybone.py lines 107-108); `**` is `Real.rpow`. -/
noncomputable def get_hertz (p : Pitch) : ℝ :=
  440 * (2 : ℝ) ^ (p.get_semitones / 12)

/-- `Pitch.from_hertz` (pybone.py lines 110-113). -/
noncomputable def from_hertz (hertz : ℝ) : Pitch :=
  from_semitones (Real.logb 2 (hertz / 440) * 12)

/-- `Pitch.remove_offset` (pybone.py lines 115-116): `Pitch(note, octave)`
with the default offset 0. -/
def remove_offset (p : Pitch) : Pitch :=
  { note := p.note, octave := p.octave, offset := 0 }

end Pitch

theorem pyRound_intCast (n : ℤ) : pyRound (n : ℝ) = n := by
  simp [pyRound, Int.fract_intCast]

theorem pyRound_int_add (n : ℤ) (o : ℝ) (h : |o| < 1 / 2) :
    pyRound ((n : ℝ) + o) = n := by
  rw [abs_lt] at h
  rcases le_or_lt 0 o with ho | ho
  · have hfl : ⌊(n : ℝ) + o⌋ = n := by
      rw [Int.floor_eq_iff]
      constructor <;> [skip; push_cast] <;> linarith
    have hfr : Int.fract ((n : ℝ) + o) = o := by
      rw [Int.fract, hfl]; ring
    simp only [pyRound, hfr, hfl]
    rw [if_pos h.2]
  · have hfl : ⌊(n : ℝ) + o⌋ = n - 1 := by
      rw [Int.floor_eq_iff]
      constructor <;> push_cast <;> linarith
    have hfr : Int.fract ((n : ℝ) + o) = 1 + o := by
      rw [Int.fract, hfl]; push_cast; ring
    simp only [pyRound, hfr, hfl]
    rw [if_neg (by linarith), if_pos (by linarith)]
    ring

/-- `from_semitones` keeps the exact continuous semitone value: the rounding
remainder stored in `offset` compensates for the rounding of note and octave
(pybone.py lines 97-105 composed with lines 74-76). -/
theorem get_semitones_from_semitones (s : ℝ) :
    (Pitch.from_semitones s).get_semitones = s := by
  simp only [Pitch.from_semitones, Pitch.get_semitones]
  have h2 : Int.emod (pyRound (s + 57)) 12 + 12 * Int.ediv (pyRound (s + 57)) 12
      = pyRound (s + 57) := Int.emod_add_ediv _ 12
  have h3 : ((Int.emod (pyRound (s + 57)) 12 : ℤ) : ℝ)
      + ((Int.ediv (pyRound (s + 57)) 12 : ℤ) : ℝ) * 12
      = ((pyRound (s + 57) : ℤ) : ℝ) := by
    exact_mod_cast by linarith
  linarith

/-- `from_hertz` recovers the semitone value fed into `get_hertz` exactly
(real-arithmetically): `logb 2 (440 * 2^(s/12) / 440) * 12 = s`. -/
theorem from_hertz_get_hertz_semitones (p : Pitch) :
    (Pitch.from_hertz p.get_hertz).get_semitones = p.get_semitones := by
  simp only [Pitch.from_hertz, Pitch.get_hertz, get_semitones_from_semitones]
  have h : (440 : ℝ) * ((2 : ℝ) ^ (p.get_semitones / 12) / 440)
      = (2 : ℝ) ^ (p.get_semitones / 12) := by ring
  rw [mul_div_assoc, h, Real.logb_rpow (by norm_num) (by norm_num)]
  ring

/-- `TROMBONE_FUNDAMENTAL = Pitch(Note.Bb, 1)` (pybone.py line 119);
`Note.Bb.value = 10`. -/
def TROMBONE_FUNDAMENTAL : Pitch := ⟨10, 1, 0⟩

/-- `TROMBONE_SLIDE_LENGTH` (pybone.py line 120). -/
noncomputable def TROMBONE_SLIDE_LENGTH : ℝ := 6.5

/-- The `Trombone` class configuration (pybone.py lines 125-128). -/
structure Trombone where
  fundamental : Pitch
  slide_length : ℝ

/-- The default standard trombone `Trombone()` (pybone.py line 126). -/
noncomputable def standardTrombone : Trombone :=
  ⟨TROMBONE_FUNDAMENTAL, TROMBONE_SLIDE_LENGTH⟩

namespace Trombone

/-- `Trombone.get_pitch` (pybone.py lines 138-149). -/
noncomputable def get_pitch (t : Trombone) (position : ℝ) (k : ℕ) : Pitch :=
  let semitones := t.fundamental.get_semitones - position
  let position_pitch := Pitch.from_semitones semitones
  let position_pitch_hertz := position_pitch.get_hertz
  let position_partial_pitch_hertz := position_pitch_hertz * ((k : ℝ) + 1)
  Pitch.from_hertz position_partial_pitch_hertz

/-- `Trombone.get_position` (pybone.py lines 151-157): the slide position at
which `pitch` sounds with the `k`-th harmonic. -/
noncomputable def get_position (t : Trombone) (pitch : Pitch) (k : ℕ) : ℝ :=
  let semitones := pitch.get_semitones
  let first_position_hertz := t.fundamental.get_hertz
  let first_position_partial_hertz := first_position_hertz * ((k : ℝ) + 1)
  let first_position_partial_pitch := Pitch.from_hertz first_position_partial_hertz
  first_position_partial_pitch.get_semitones - semitones

end Trombone

/-- The semitone value of the pitch sounding at position 0 on harmonic `k`:
scaling a frequency `440 * 2^(s/12)` by `k + 1` adds `12 * logb 2 (k + 1)`
to the semitone value recovered by `from_hertz`. -/
theorem from_hertz_scaled_semitones (s : ℝ) (k : ℕ) :
    (Pitch.from_hertz ((440 * (2 : ℝ) ^ (s / 12)) * ((k : ℝ) + 1))).get_semitones
      = s + 12 * Real.logb 2 ((k : ℝ) + 1) := by
  simp only [Pitch.from_hertz, get_semitones_from_semitones]
  have hk : ((k : ℝ) + 1) ≠ 0 := by positivity
  have hx : (2 : ℝ) ^ (s / 12) ≠ 0 := by positivity
  have h : (440 : ℝ) * (2 : ℝ) ^ (s / 12) * ((k : ℝ) + 1) / 440
      = (2 : ℝ) ^ (s / 12) * ((k : ℝ) + 1) := by ring
  rw [h, Real.logb_mul hx hk, Real.logb_rpow (by norm_num) (by norm_num)]
  ring

/-- Closed form for `get_position`: fundamental's semitone value, plus
`12 * logb 2 (k + 1)` for the harmonic, minus the target's semitone value. -/
theorem get_position_eq (t : Trombone) (p : Pitch) (k : ℕ) :
    t.get_position p k
      = t.fundamental.get_semitones + 12 * Real.logb 2 ((k : ℝ) + 1)
        - p.get_semitones := by
  simp only [Trombone.get_position, Pitch.get_hertz]
  rw [from_hertz_scaled_semitones]

/-- `get_position` is strictly increasing in the harmonic index: a higher
harmonic needs a longer tube, hence a further-extended slide, to sound the
same pitch (cf. the source comments at pybone.py lines 166 and 171). -/
theorem get_position_strictMono (t : Trombone) (p : Pitch) {k k' : ℕ}
    (h : k < k') : t.get_position p k < t.get_position p k' := by
  rw [get_position_eq, get_position_eq]
  have hlt : ((k : ℝ) + 1) < ((k' : ℝ) + 1) := by exact_mod_cast by omega
  have := Real.logb_lt_logb (b := 2) (by norm_num) (by positivity) hlt
  linarith

theorem get_position_mono (t : Trombone) (p : Pitch) {k k' : ℕ}
    (h : k ≤ k') : t.get_position p k ≤ t.get_position p k' := by
  rcases lt_or_eq_of_le h with h' | h'
  · exact le_of_lt (get_position_strictMono t p h')
  · rw [h']

/-- The `while` loop of `get_positions_and_partials` terminates: some harmonic
index needs a position beyond any bound (take `k + 1` a power of two). -/
theorem exists_stop (t : Trombone) (p : Pitch) :
    ∃ k : ℕ, t.slide_length < t.get_position p k := by
  obtain ⟨m, hm⟩ := exists_nat_gt
    ((t.slide_length - t.fundamental.get_semitones + p.get_semitones) / 12)
  refine ⟨2 ^ m - 1, ?_⟩
  rw [get_position_eq]
  have h1 : ((2 ^ m - 1 : ℕ) : ℝ) + 1 = (2 : ℝ) ^ (m : ℕ) := by
    have : (2 : ℕ) ^ m - 1 + 1 = 2 ^ m := Nat.succ_pred_eq_of_pos (Nat.pos_pow_of_pos m (by norm_num))
    calc ((2 ^ m - 1 : ℕ) : ℝ) + 1 = (((2 ^ m - 1 + 1 : ℕ)) : ℝ) := by push_cast; ring
    _ = (((2 ^ m : ℕ)) : ℝ) := by rw [this]
    _ = (2 : ℝ) ^ (m : ℕ) := by push_cast; ring
  rw [h1]
  have h2 : Real.logb 2 ((2 : ℝ) ^ (m : ℕ)) = m := by
    rw [Real.logb_pow, Real.logb_self_eq_one (by norm_num)]
    ring
  rw [h2]
  have h12 : (12 : ℝ) > 0 := by norm_num
  rw [div_lt_iff₀ h12] at hm
  linarith

namespace Trombone

/-- The index at which the `while` loop of `get_positions_and_partials`
(pybone.py lines 162-172) breaks: the first harmonic whose position exceeds
the slide length.  (The loop starts at `partial = 0` and increments by 1, so
the break happens exactly at the smallest such index.) -/
noncomputable def stopPartial (t : Trombone) (p : Pitch) : ℕ :=
  Nat.find (exists_stop t p)

/-- `Trombone.get_positions_and_partials` (pybone.py lines 159-173).  The
loop visits `partial = 0, 1, 2, ...`, breaks at the first index whose
position exceeds `slide_length` (that is, at `stopPartial`), and appends
`(position, partial)` for every earlier index whose position exceeds `-0.5`
("allow flat notes in first position"). -/
noncomputable def get_positions_and_partials (t : Trombone) (p : Pitch) :
    List ℝ × List ℕ :=
  let kept := (List.range (t.stopPartial p)).filter
    fun k => decide (-(1 / 2 : ℝ) < t.get_position p k)
  (kept.map fun k => t.get_position p k, kept)

end Trombone

/-- Position at the break index exceeds the slide length. -/
theorem stopPartial_spec (t : Trombone) (p : Pitch) :
    t.slide_length < t.get_position p (t.stopPartial p) :=
  Nat.find_spec (exists_stop t p)

/-- Before the break index every position is within the slide length. -/
theorem stopPartial_min (t : Trombone) (p : Pitch) {k : ℕ}
    (h : k < t.stopPartial p) : t.get_position p k ≤ t.slide_length :=
  le_of_not_lt (Nat.find_min (exists_stop t p) h)

/-- `k` is below the break index exactly when its position is within the
slide length (uses monotonicity of `get_position` in the harmonic index). -/
theorem lt_stopPartial_iff (t : Trombone) (p : Pitch) (k : ℕ) :
    k < t.stopPartial p ↔ t.get_position p k ≤ t.slide_length := by
  constructor
  · exact fun h => stopPartial_min t p h
  · intro h
    by_contra hk
    push_neg at hk
    exact absurd (le_trans (get_position_mono t p hk) h)
      (not_le.mpr (stopPartial_spec t p))

/-- Membership in the returned `partials` list: the kept harmonics are
exactly those within the slide-length bound and above the `-0.5` tolerance. -/
theorem mem_partials_iff (t : Trombone) (p : Pitch) (k : ℕ) :
    k ∈ (t.get_positions_and_partials p).2
      ↔ -(1 / 2 : ℝ) < t.get_position p k
        ∧ t.get_position p k ≤ t.slide_length := by
  simp only [Trombone.get_positions_and_partials, List.mem_filter,
    List.mem_range, decide_eq_true_eq, lt_stopPartial_iff]
  tauto

/-- The returned `positions` list is the position of each kept harmonic, in
the same order. -/
theorem positions_eq_map (t : Trombone) (p : Pitch) :
    (t.get_positions_and_partials p).1
      = (t.get_positions_and_partials p).2.map fun k => t.get_position p k := rfl

/-- The `Trombone.State` frozen dataclass (pybone.py lines 191-197).  The
source's field `partial` is a Lean keyword, so it is named `partialIdx` here;
`out` defaults to `False` in the source. -/
structure Trombone.State where
  id : ℕ
  pitch : Pitch
  position : ℝ
  partialIdx : ℕ
  out : Bool

/-- The Python exceptions the core can raise: `ValueError('pitch cannot be
played: ...')` from `get_states_of_pitch` (line 208), `IndexError` from
`states[0]` on an empty state list (lines 230, 264), and `networkx`'s
`NetworkXNoPath` from `nx.shortest_path`. -/
inductive PyErr where
  | valueError : Pitch → PyErr
  | indexError : PyErr
  | noPath : PyErr

/-- `Trombone.get_states_of_pitch` (pybone.py lines 199-210): one `State` per
(position, partial) pair, and `ValueError` when there are none. -/
noncomputable def Trombone.get_states_of_pitch (t : Trombone) (id : ℕ)
    (p : Pitch) (out : Bool) : Except PyErr (List Trombone.State) :=
  let pp := t.get_positions_and_partials p
  let states := (pp.1.zip pp.2).map fun q => Trombone.State.mk id p q.1 q.2 out
  if states.isEmpty then .error (.valueError p) else .ok states

/-- The loop of `Trombone.get_states_of_pitches` (pybone.py lines 212-216)
from a given starting index (`enumerate` starts at 0). -/
noncomputable def Trombone.statesFrom (t : Trombone) (out : Bool) :
    ℕ → List Pitch → Except PyErr (List (List Trombone.State))
  | _, [] => .ok []
  | i, p :: rest => do
      let s ← t.get_states_of_pitch i p out
      let r ← t.statesFrom out (i + 1) rest
      pure (s :: r)

/-- `Trombone.get_states_of_pitches` (pybone.py lines 212-216). -/
noncomputable def Trombone.get_states_of_pitches (t : Trombone)
    (pitches : List Pitch) (out : Bool) :
    Except PyErr (List (List Trombone.State)) :=
  t.statesFrom out 0 pitches

/-- Total weight of a path: the sum of the edge weights of its consecutive
pairs. -/
noncomputable def pathCost {α : Type} (w : α → α → ℝ) : List α → ℝ
  | a :: b :: rest => w a b + pathCost w (b :: rest)
  | _ => 0

/-- All consecutive edges of the path are present in the graph. -/
def chainOk {α : Type} (ok : α → α → Bool) : List α → Bool
  | a :: b :: rest => ok a b && chainOk ok (b :: rest)
  | _ => true

/-- Models `nx.shortest_path(DG, START_NODE, END_NODE, weight='weight')`
followed by `path[1:-1]` on the layered graphs pybone builds (lines 226-244,
260-293, 307-326, 340-359).  In each of those graphs START connects to every
node of the first layer with weight 0 and every node of the last layer
connects to END with weight 0, so after stripping START and END a START→END
path is exactly a section of the layer list all of whose consecutive edges
are present; `nx.shortest_path` (Dijkstra; all weights are nonnegative)
returns one of minimum total weight, modelled as a minimum over all such
sections.  An unreachable END (`NetworkXNoPath`) is modelled by `noPath`. -/
noncomputable def solveLayered {α : Type} (layers : List (List α))
    (ok : α → α → Bool) (w : α → α → ℝ) : Except PyErr (List α) :=
  match ((layers.sections).filter (chainOk ok)).argmin (pathCost w) with
  | some path => .ok path
  | none => .error .noPath

/-- Distance-mode edge weight `abs(u.position - v.position)` (line 240). -/
noncomputable def distanceWeight (u v : Trombone.State) : ℝ :=
  |u.position - v.position|

/-- Gliss-mode edge weight: 0 if the partial is unchanged else 1 (line 323). -/
noncomputable def glissWeight (u v : Trombone.State) : ℝ :=
  if u.partialIdx = v.partialIdx then 0 else 1

/-- Legato-mode edge weight: 1 if the partial is unchanged else 0 (line 356). -/
noncomputable def legatoWeight (u v : Trombone.State) : ℝ :=
  if u.partialIdx = v.partialIdx then 1 else 0

/-- In distance, gliss and legato modes every cross-product edge between
adjacent layers is added. -/
def alwaysEdge : Trombone.State → Trombone.State → Bool := fun _ _ => true

/-- The "in" direction variant of a state (`out=False`). -/
def asIn (s : Trombone.State) : Trombone.State := { s with out := false }

/-- The "out" direction variant of a state (`out=True`). -/
def asOut (s : Trombone.State) : Trombone.State := { s with out := true }

/-- The direction-mode edge weight between two tagged states, read off the
branchwise `add_edge` calls of pybone.py lines 282-290: when the slide must
retract (`u.position > v.position`) only `v`'s in-variant is entered, at cost
0 from an in-state and 1 from an out-state; when it must extend, only `v`'s
out-variant is entered, at cost 0 from an out-state and 1 from an in-state;
at equal positions each tag continues to itself at cost 0.  `none` means no
edge is added. -/
noncomputable def dirWeight (u v : Trombone.State) : Option ℝ :=
  if v.out = false then
    if v.position < u.position then some (if u.out then 1 else 0)
    else if u.position < v.position then none
    else if u.out = false then some 0 else none
  else
    if v.position < u.position then none
    else if u.position < v.position then some (if u.out then 0 else 1)
    else if u.out = true then some 0 else none

/-- Graph nodes: the two virtual endpoints plus the candidate states. -/
inductive GNode where
  | startNode : GNode
  | endNode : GNode
  | stateNode : Trombone.State → GNode

/-- The direction-mode edges added for one pair of underlying candidate
states (pybone.py lines 280-290; `u` and `v` range over the in-layers, their
out-variants sit at the same index of the out-layers). -/
noncomputable def dirPairEdges (u v : Trombone.State) :
    List (GNode × GNode × ℝ) :=
  if v.position < u.position then
    [(.stateNode (asIn u), .stateNode (asIn v), 0),
     (.stateNode (asOut u), .stateNode (asIn v), 1)]
  else if u.position < v.position then
    [(.stateNode (asOut u), .stateNode (asOut v), 0),
     (.stateNode (asIn u), .stateNode (asOut v), 1)]
  else
    [(.stateNode (asIn u), .stateNode (asIn v), 0),
     (.stateNode (asOut u), .stateNode (asOut v), 0)]

/-- All direction-mode edges between two adjacent layers (the double loop of
pybone.py lines 280-290). -/
noncomputable def dirLayerEdges (cur nxt : List Trombone.State) :
    List (GNode × GNode × ℝ) :=
  cur.flatMap fun u => nxt.flatMap fun v => dirPairEdges u v

/-- The rounding post-pass applied to each returned state when
`round_positions` is set (pybone.py lines 247, 296, 329, 362):
`State(t.id, t.pitch, round(t.position), t.partial)` — note `out` reverts to
its default `False`. -/
noncomputable def roundState (s : Trombone.State) : Trombone.State :=
  Trombone.State.mk s.id s.pitch ((pyRound s.position : ℤ) : ℝ) s.partialIdx false

/-- `Trombone.minimize_slide_movement` (pybone.py lines 218-249): a raised
`ValueError` propagates from `get_states_of_pitches`; an empty layer list
makes `states[0]` raise `IndexError`; otherwise the shortest path through
the complete layered graph weighted by `distanceWeight`, rounded at the end
when requested. -/
noncomputable def Trombone.minimize_slide_movement (t : Trombone)
    (pitches : List Pitch) (round_positions : Bool) :
    Except PyErr (List Trombone.State) :=
  match t.get_states_of_pitches pitches false with
  | .error e => .error e
  | .ok states =>
    if states.isEmpty then .error PyErr.indexError
    else
      match solveLayered states alwaysEdge distanceWeight with
      | .error e => .error e
      | .ok path => .ok (if round_positions then path.map roundState else path)

/-- `Trombone.minimize_direction_changes` (pybone.py lines 251-298).  Each
graph layer holds the in- and out-variants of the layer's candidate states
(`in_states[i]` entries carry `out=False`, so `layer ++ layer.map asOut` is
`in_states[i] ++ out_states[i]`). -/
noncomputable def Trombone.minimize_direction_changes (t : Trombone)
    (pitches : List Pitch) (round_positions : Bool) :
    Except PyErr (List Trombone.State) :=
  match t.get_states_of_pitches pitches false with
  | .error e => .error e
  | .ok in_states =>
    match t.get_states_of_pitches pitches true with
    | .error e => .error e
    | .ok _ =>
      if in_states.isEmpty then .error PyErr.indexError
      else
        let layers := in_states.map fun layer => layer ++ layer.map asOut
        match solveLayered layers (fun u v => (dirWeight u v).isSome)
          (fun u v => (dirWeight u v).getD 0) with
        | .error e => .error e
        | .ok path => .ok (if round_positions then path.map roundState else path)

/-- `Trombone.minimize_partial_changes` (pybone.py lines 300-331). -/
noncomputable def Trombone.minimize_partial_changes (t : Trombone)
    (pitches : List Pitch) (round_positions : Bool) :
    Except PyErr (List Trombone.State) :=
  match t.get_states_of_pitches pitches false with
  | .error e => .error e
  | .ok states =>
    if states.isEmpty then .error PyErr.indexError
    else
      match solveLayered states alwaysEdge glissWeight with
      | .error e => .error e
      | .ok path => .ok (if round_positions then path.map roundState else path)

/-- `Trombone.maximize_partial_changes` (pybone.py lines 333-364). -/
noncomputable def Trombone.maximize_partial_changes (t : Trombone)
    (pitches : List Pitch) (round_positions : Bool) :
    Except PyErr (List Trombone.State) :=
  match t.get_states_of_pitches pitches false with
  | .error e => .error e
  | .ok states =>
    if states.isEmpty then .error PyErr.indexError
    else
      match solveLayered states alwaysEdge legatoWeight with
      | .error e => .error e
      | .ok path => .ok (if round_positions then path.map roundState else path)

/-- The edges of the complete layered graph for the single-tag modes:
START to every first-layer state and every last-layer state to END at weight
0, plus the full cross product between adjacent layers. -/
noncomputable def layeredGraphEdges (states : List (List Trombone.State))
    (w : Trombone.State → Trombone.State → ℝ) : List (GNode × GNode × ℝ) :=
  let startEdges := (states.headD []).map
    fun s => (GNode.startNode, GNode.stateNode s, (0 : ℝ))
  let endEdges := (states.getLastD []).map
    fun s => (GNode.stateNode s, GNode.endNode, (0 : ℝ))
  let layerEdges := (states.zip states.tail).flatMap fun cl =>
    cl.1.flatMap fun u => cl.2.map
      fun v => (GNode.stateNode u, GNode.stateNode v, w u v)
  startEdges ++ endEdges ++ layerEdges

/-- The graph `minimize_slide_movement` has built when it returns or raises:
if `get_states_of_pitches` raises, no graph object exists yet; on an empty
pitch sequence `DG` with the two virtual nodes is created (lines 226-228)
before `states[0]` raises IndexError (line 230); otherwise the full layered
graph. -/
noncomputable def Trombone.slide_movement_graph (t : Trombone)
    (pitches : List Pitch) : List GNode × List (GNode × GNode × ℝ) :=
  match t.get_states_of_pitches pitches false with
  | .error _ => ([], [])
  | .ok states =>
    if states.isEmpty then ([GNode.startNode, GNode.endNode], [])
    else (GNode.startNode :: GNode.endNode :: (states.flatten.map GNode.stateNode),
      layeredGraphEdges states distanceWeight)

/-- The graph `minimize_partial_changes` has built when it returns or raises
(same shape as the distance mode, with the gliss weight). -/
noncomputable def Trombone.partial_changes_graph (t : Trombone)
    (pitches : List Pitch) : List GNode × List (GNode × GNode × ℝ) :=
  match t.get_states_of_pitches pitches false with
  | .error _ => ([], [])
  | .ok states =>
    if states.isEmpty then ([GNode.startNode, GNode.endNode], [])
    else (GNode.startNode :: GNode.endNode :: (states.flatten.map GNode.stateNode),
      layeredGraphEdges states glissWeight)

/-- The graph `maximize_partial_changes` has built when it returns or raises
(same shape as the distance mode, with the legato weight). -/
noncomputable def Trombone.max_partial_changes_graph (t : Trombone)
    (pitches : List Pitch) : List GNode × List (GNode × GNode × ℝ) :=
  match t.get_states_of_pitches pitches false with
  | .error _ => ([], [])
  | .ok states =>
    if states.isEmpty then ([GNode.startNode, GNode.endNode], [])
    else (GNode.startNode :: GNode.endNode :: (states.flatten.map GNode.stateNode),
      layeredGraphEdges states legatoWeight)

/-- The graph `minimize_direction_changes` has built when it returns or
raises: on an empty pitch sequence only START and END exist before
`in_states[0]` raises IndexError (line 264); otherwise START/END edges to
both tag-variants of the outer layers plus the branchwise layer edges. -/
noncomputable def Trombone.direction_changes_graph (t : Trombone)
    (pitches : List Pitch) : List GNode × List (GNode × GNode × ℝ) :=
  match t.get_states_of_pitches pitches false with
  | .error _ => ([], [])
  | .ok in_states =>
    if in_states.isEmpty then ([GNode.startNode, GNode.endNode], [])
    else
      let first := in_states.headD []
      let last := in_states.getLastD []
      let startEdges :=
        (first.map fun s => (GNode.startNode, GNode.stateNode s, (0 : ℝ)))
          ++ (first.map fun s => (GNode.startNode, GNode.stateNode (asOut s), (0 : ℝ)))
      let endEdges :=
        (last.map fun s => (GNode.stateNode s, GNode.endNode, (0 : ℝ)))
          ++ (last.map fun s => (GNode.stateNode (asOut s), GNode.endNode, (0 : ℝ)))
      let layerEdges := (in_states.zip in_states.tail).flatMap
        fun cl => dirLayerEdges cl.1 cl.2
      (GNode.startNode :: GNode.endNode ::
        (in_states.flatten.map GNode.stateNode
          ++ in_states.flatten.map fun s => GNode.stateNode (asOut s)),
        startEdges ++ endEdges ++ layerEdges)

/-- Pitch `B1` (`Note.B.value = 11`), one semitone above the standard
fundamental `Bb1`. -/
def pitchB1 : Pitch := ⟨11, 1, 0⟩

/-- Pitch `A4` (`Note.A.value = 9`), concert A. -/
def pitchA4 : Pitch := ⟨9, 4, 0⟩

/-- A degenerate instrument whose slide length is negative. -/
noncomputable def negTrombone : Trombone := ⟨TROMBONE_FUNDAMENTAL, -1⟩

/-- `Trombone(slide_length=0)`, the spec's unplayable-pitch scenario. -/
noncomputable def zeroTrombone : Trombone := ⟨TROMBONE_FUNDAMENTAL, 0⟩

/-- C2 counterexample: the claim says `get_position` strictly *decreases* as
the partial index increases; on the code it strictly increases.  At the
standard trombone and the fundamental pitch `Bb1`, partial 0 needs position
`0` and partial 1 needs position `12`, so `get_position` at partial 0 is not
greater than at partial 1. -/
theorem claim_C2_counterexample :
    ¬ (standardTrombone.get_position TROMBONE_FUNDAMENTAL 0
        > standardTrombone.get_position TROMBONE_FUNDAMENTAL 1) := by
  rw [gt_iff_lt, not_lt, get_position_eq, get_position_eq]
  have h1 : ((0 : ℕ) : ℝ) + 1 = 1 := by norm_num
  have h2 : ((1 : ℕ) : ℝ) + 1 = 2 := by norm_num
  rw [h1, h2, Real.logb_one, Real.logb_self_eq_one (by norm_num)]
  norm_num

/-- C2 (amended): for every fixed target pitch and instrument configuration,
`get_position` strictly *increases* as the partial index increases: for all
partials `k < k'`, `get_position(pitch, k) < get_position(pitch, k')`.
(Each higher harmonic needs a longer tube, hence more slide extension; this
is what justifies the enumerator's termination at the `position >
slide_length` break.) -/
theorem claim_C2_position_strictly_increasing (t : Trombone) (p : Pitch)
    (k k' : ℕ) (h : k < k') : t.get_position p k < t.get_position p k' :=
  get_position_strictMono t p h

/-- C2 witness: the amended monotonicity at the standard trombone,
pitch `Bb1`, partials `0 < 1`. -/
theorem claim_C2_witness :
    standardTrombone.get_position TROMBONE_FUNDAMENTAL 0
      < standardTrombone.get_position TROMBONE_FUNDAMENTAL 1 :=
  claim_C2_position_strictly_increasing standardTrombone TROMBONE_FUNDAMENTAL
    0 1 (by norm_num)

/-- C10: under exact real arithmetic, `get_position` inverts `get_pitch` at
the same partial: converting a (position, partial) pair to the pitch it
sounds and asking for the position needed to play that pitch at that partial
recovers the original position exactly (the `offset` field of the
intermediate `Pitch` carries the full continuous semitone value). -/
theorem claim_C10_get_position_get_pitch (t : Trombone) (position : ℝ)
    (k : ℕ) : t.get_position (t.get_pitch position k) k = position := by
  rw [get_position_eq]
  have h : (t.get_pitch position k).get_semitones
      = (t.fundamental.get_semitones - position)
        + 12 * Real.logb 2 ((k : ℝ) + 1) := by
    simp only [Trombone.get_pitch, Pitch.get_hertz,
      get_semitones_from_semitones]
    exact from_hertz_scaled_semitones _ k
  rw [h]
  ring

/-- `from_hertz ∘ get_hertz` factors through `from_semitones` at the pitch's
own semitone value. -/
theorem from_hertz_get_hertz (p : Pitch) :
    Pitch.from_hertz p.get_hertz = Pitch.from_semitones p.get_semitones := by
  simp only [Pitch.from_hertz, Pitch.get_hertz]
  have h : (440 : ℝ) * ((2 : ℝ) ^ (p.get_semitones / 12) / 440)
      = (2 : ℝ) ^ (p.get_semitones / 12) := by ring
  rw [mul_div_assoc, h, Real.logb_rpow (by norm_num) (by norm_num)]
  rw [div_mul_cancel₀ _ (by norm_num : (12 : ℝ) ≠ 0)]

/-- For a pitch with integral offset-free data, `from_semitones` of its own
semitone value reconstructs it exactly (note in `0..11`, any octave). -/
theorem from_semitones_get_semitones (p : Pitch) (h0 : 0 ≤ p.note)
    (h12 : p.note < 12) (hoff : p.offset = 0) :
    Pitch.from_semitones p.get_semitones = p := by
  obtain ⟨n, oc, ofs⟩ := p
  simp only at h0 h12
  subst hoff
  have hs : Pitch.get_semitones ⟨n, oc, 0⟩ + 57 = ((n + 12 * oc : ℤ) : ℝ) := by
    simp only [Pitch.get_semitones]
    push_cast
    ring
  have hround : pyRound (Pitch.get_semitones ⟨n, oc, 0⟩ + 57) = n + 12 * oc := by
    rw [hs, pyRound_intCast]
  simp only [Pitch.from_semitones, hround]
  have hemod : Int.emod (n + 12 * oc) 12 = n := by
    show (n + 12 * oc) % 12 = n
    rw [Int.add_mul_emod_self_left, Int.emod_eq_of_lt h0 h12]
  have hediv : Int.ediv (n + 12 * oc) 12 = oc := by
    have h1 : (n + 12 * oc) / 12 = n / 12 + oc :=
      Int.add_mul_ediv_left n oc (by norm_num)
    have h2 : n / 12 = 0 := Int.ediv_eq_zero_of_lt h0 h12
    show (n + 12 * oc) / 12 = oc
    rw [h1, h2, zero_add]
  rw [hemod, hediv, hs]
  simp

/-- C5: converting a pitch to frequency and back preserves the continuous
semitone value exactly (so a nonzero sub-semitone offset's deviation is
preserved), and for an integer-semitone pitch (offset 0, note in the enum
range 0-11) `from_hertz(get_hertz(p)).remove_offset() == p` — in fact the
round trip already yields `p` itself. -/
theorem claim_C5_frequency_roundtrip (p : Pitch) :
    (Pitch.from_hertz p.get_hertz).get_semitones = p.get_semitones
      ∧ (0 ≤ p.note → p.note < 12 → p.offset = 0
          → (Pitch.from_hertz p.get_hertz).remove_offset = p) := by
  refine ⟨from_hertz_get_hertz_semitones p, fun h0 h12 hoff => ?_⟩
  rw [from_hertz_get_hertz, from_semitones_get_semitones p h0 h12 hoff]
  rw [Pitch.remove_offset, ← hoff]

/-- C5 witness: the round trip at concert `A4`. -/
theorem claim_C5_witness :
    (Pitch.from_hertz pitchA4.get_hertz).remove_offset = pitchA4 :=
  (claim_C5_frequency_roundtrip pitchA4).2 (by norm_num [pitchA4])
    (by norm_num [pitchA4]) rfl

/-- C4 counterexample: with a (degenerate) negative slide length `-1` and the
pitch `B1` one semitone above the fundamental, partial 0 needs position `-1`,
exactly equal to the slide length, yet it is *not* included — the `-0.5`
tolerance filter drops it.  So "a position exactly equal to slideLength is
included" fails as stated for every configuration. -/
theorem claim_C4_counterexample :
    negTrombone.get_position pitchB1 0 = negTrombone.slide_length
      ∧ 0 ∉ (negTrombone.get_positions_and_partials pitchB1).2 := by
  have hpos : negTrombone.get_position pitchB1 0 = -1 := by
    rw [get_position_eq]
    norm_num [Pitch.get_semitones, TROMBONE_FUNDAMENTAL, pitchB1, negTrombone]
  refine ⟨by rw [hpos]; rfl, fun hmem => ?_⟩
  have := (mem_partials_iff negTrombone pitchB1 0).mp hmem
  rw [hpos] at this
  norm_num at this

/-- C4 (amended): every candidate produced by the enumerator has a position
in `(-0.5, slideLength]`; a partial whose position exceeds `slideLength` is
excluded, one whose position is `≤ -0.5` is excluded, and one whose position
equals `slideLength` is included provided that value also exceeds `-0.5`
(in particular always when `slideLength > -0.5`). -/
theorem claim_C4_enumerator_bounds (t : Trombone) (p : Pitch) :
    (∀ pos ∈ (t.get_positions_and_partials p).1,
        -(1 / 2 : ℝ) < pos ∧ pos ≤ t.slide_length)
      ∧ (∀ k : ℕ, t.get_position p k = t.slide_length
          → -(1 / 2 : ℝ) < t.slide_length
          → k ∈ (t.get_positions_and_partials p).2)
      ∧ (∀ k : ℕ, t.slide_length < t.get_position p k
          → k ∉ (t.get_positions_and_partials p).2)
      ∧ (∀ k : ℕ, t.get_position p k ≤ -(1 / 2 : ℝ)
          → k ∉ (t.get_positions_and_partials p).2) := by
  refine ⟨?_, ?_, ?_, ?_⟩
  · intro pos hpos
    rw [positions_eq_map] at hpos
    obtain ⟨k, hk, rfl⟩ := List.mem_map.mp hpos
    exact (mem_partials_iff t p k).mp hk
  · intro k hk hL
    refine (mem_partials_iff t p k).mpr ⟨?_, le_of_eq hk⟩
    rw [hk]
    exact hL
  · intro k hk hmem
    exact absurd ((mem_partials_iff t p k).mp hmem).2 (not_le.mpr hk)
  · intro k hk hmem
    exact absurd ((mem_partials_iff t p k).mp hmem).1 (not_lt.mpr hk)

/-- C4 witness: at the standard trombone and the fundamental `Bb1`, partial 1
needs position `12 > 6.5` and is excluded. -/
theorem claim_C4_witness :
    1 ∉ (standardTrombone.get_positions_and_partials TROMBONE_FUNDAMENTAL).2 := by
  refine (claim_C4_enumerator_bounds standardTrombone TROMBONE_FUNDAMENTAL).2.2.1 1 ?_
  rw [get_position_eq]
  have h2 : ((1 : ℕ) : ℝ) + 1 = 2 := by norm_num
  rw [h2, Real.logb_self_eq_one (by norm_num)]
  norm_num [Pitch.get_semitones, TROMBONE_FUNDAMENTAL, standardTrombone,
    TROMBONE_SLIDE_LENGTH]

/-- C6: `get_states_of_pitch` raises `ValueError` ("pitch cannot be played")
exactly when no partial's position lies in `(-0.5, slide_length]` — the
slide-length bound with the flat-note tolerance.  (With `slide_length = 0`
this specialises to: the error is raised for every pitch not reachable at a
partial-derived position in `(-0.5, 0]`.) -/
theorem claim_C6_unplayable_iff (t : Trombone) (i : ℕ) (p : Pitch)
    (o : Bool) :
    t.get_states_of_pitch i p o = Except.error (PyErr.valueError p)
      ↔ ¬ ∃ k : ℕ, -(1 / 2 : ℝ) < t.get_position p k
          ∧ t.get_position p k ≤ t.slide_length := by
  have hmap := positions_eq_map t p
  rcases hl : (t.get_positions_and_partials p).2 with _ | ⟨a, as⟩
  · have h1 : (t.get_positions_and_partials p).1 = [] := by
      rw [hmap, hl]
      rfl
    simp only [Trombone.get_states_of_pitch, h1, hl]
    constructor
    · rintro - ⟨k, hk1, hk2⟩
      have hmem := (mem_partials_iff t p k).mpr ⟨hk1, hk2⟩
      rw [hl] at hmem
      exact absurd hmem (List.not_mem_nil k)
    · intro _
      rfl
  · have ha : a ∈ (t.get_positions_and_partials p).2 := by
      rw [hl]
      exact List.mem_cons_self a as
    have hb := (mem_partials_iff t p a).mp ha
    have h1 : (t.get_positions_and_partials p).1
        = (a :: as).map fun k => t.get_position p k := by
      rw [hmap, hl]
    simp only [Trombone.get_states_of_pitch, h1, hl]
    constructor
    · intro h
      simp at h
    · intro h
      exact absurd ⟨a, hb.1, hb.2⟩ h

/-- Membership in the between-layer direction edges: an edge comes from some
pair of layer states. -/
theorem mem_dirLayerEdges {cur nxt : List Trombone.State}
    {e : GNode × GNode × ℝ} :
    e ∈ dirLayerEdges cur nxt
      ↔ ∃ u ∈ cur, ∃ v ∈ nxt, e ∈ dirPairEdges u v := by
  simp [dirLayerEdges]

/-- Soundness of the direction-mode edge construction: every added edge
respects the position comparison of its endpoints — a retracting move enters
an in-tagged state, an extending move enters an out-tagged state, and a
stationary move preserves the tag.  (The tag-variants carry the positions of
the underlying states, so the conclusion is phrased on the edge's own
endpoints.) -/
theorem dirLayerEdges_sound {cur nxt : List Trombone.State}
    {a b : Trombone.State} {w : ℝ}
    (h : (GNode.stateNode a, GNode.stateNode b, w) ∈ dirLayerEdges cur nxt) :
    (b.position < a.position ∧ b.out = false)
      ∨ (a.position < b.position ∧ b.out = true)
      ∨ (a.position = b.position ∧ a.out = b.out) := by
  obtain ⟨u, -, v, -, hpe⟩ := mem_dirLayerEdges.mp h
  unfold dirPairEdges at hpe
  split_ifs at hpe with h1 h2
  · simp only [List.mem_cons, List.not_mem_nil, or_false, Prod.mk.injEq,
      GNode.stateNode.injEq] at hpe
    rcases hpe with ⟨ha, hb, -⟩ | ⟨ha, hb, -⟩ <;> subst ha <;> subst hb <;>
      exact Or.inl ⟨by simpa [asIn, asOut] using h1, by simp [asIn]⟩
  · simp only [List.mem_cons, List.not_mem_nil, or_false, Prod.mk.injEq,
      GNode.stateNode.injEq] at hpe
    rcases hpe with ⟨ha, hb, -⟩ | ⟨ha, hb, -⟩ <;> subst ha <;> subst hb <;>
      exact Or.inr (Or.inl ⟨by simpa [asIn, asOut] using h2, by simp [asOut]⟩)
  · have heq : u.position = v.position := le_antisymm (not_lt.mp h1) (not_lt.mp h2)
    simp only [List.mem_cons, List.not_mem_nil, or_false, Prod.mk.injEq,
      GNode.stateNode.injEq] at hpe
    rcases hpe with ⟨ha, hb, -⟩ | ⟨ha, hb, -⟩ <;> subst ha <;> subst hb <;>
      exact Or.inr (Or.inr ⟨by simpa [asIn, asOut] using heq, by simp [asIn, asOut]⟩)

/-- C3: the direction-mode edge table between a pair of candidate states `u`
(in layer `i`) and `v` (in layer `i+1`): when `u.position > v.position` there
are edges `u(in)→v(in)` weight 0 and `u(out)→v(in)` weight 1 and no edge from
either tag of `u` to `v(out)`; when `u.position < v.position` there are edges
`u(out)→v(out)` weight 0 and `u(in)→v(out)` weight 1 and no edge into
`v(in)`; at equal positions both tags continue to themselves at weight 0 with
no cross-tag edges. -/
theorem claim_C3_direction_edge_rules (cur nxt : List Trombone.State)
    (u v : Trombone.State) (hu : u ∈ cur) (hv : v ∈ nxt) :
    (u.position > v.position →
        (GNode.stateNode (asIn u), GNode.stateNode (asIn v), (0 : ℝ))
            ∈ dirLayerEdges cur nxt
          ∧ (GNode.stateNode (asOut u), GNode.stateNode (asIn v), (1 : ℝ))
            ∈ dirLayerEdges cur nxt
          ∧ (∀ w : ℝ,
              (GNode.stateNode (asIn u), GNode.stateNode (asOut v), w)
                ∉ dirLayerEdges cur nxt
              ∧ (GNode.stateNode (asOut u), GNode.stateNode (asOut v), w)
                ∉ dirLayerEdges cur nxt))
      ∧ (u.position < v.position →
          (GNode.stateNode (asOut u), GNode.stateNode (asOut v), (0 : ℝ))
            ∈ dirLayerEdges cur nxt
          ∧ (GNode.stateNode (asIn u), GNode.stateNode (asOut v), (1 : ℝ))
            ∈ dirLayerEdges cur nxt
          ∧ (∀ w : ℝ,
              (GNode.stateNode (asIn u), GNode.stateNode (asIn v), w)
                ∉ dirLayerEdges cur nxt
              ∧ (GNode.stateNode (asOut u), GNode.stateNode (asIn v), w)
                ∉ dirLayerEdges cur nxt))
      ∧ (u.position = v.position →
          (GNode.stateNode (asIn u), GNode.stateNode (asIn v), (0 : ℝ))
            ∈ dirLayerEdges cur nxt
          ∧ (GNode.stateNode (asOut u), GNode.stateNode (asOut v), (0 : ℝ))
            ∈ dirLayerEdges cur nxt
          ∧ (∀ w : ℝ,
              (GNode.stateNode (asIn u), GNode.stateNode (asOut v), w)
                ∉ dirLayerEdges cur nxt
              ∧ (GNode.stateNode (asOut u), GNode.stateNode (asIn v), w)
                ∉ dirLayerEdges cur nxt)) := by
  refine ⟨fun hgt => ⟨?_, ?_, fun w => ⟨?_, ?_⟩⟩,
    fun hlt => ⟨?_, ?_, fun w => ⟨?_, ?_⟩⟩,
    fun heq => ⟨?_, ?_, fun w => ⟨?_, ?_⟩⟩⟩
  · exact mem_dirLayerEdges.mpr ⟨u, hu, v, hv, by simp [dirPairEdges, hgt]⟩
  · exact mem_dirLayerEdges.mpr ⟨u, hu, v, hv, by simp [dirPairEdges, hgt]⟩
  · intro hmem
    rcases dirLayerEdges_sound hmem with ⟨-, hb⟩ | ⟨hab, -⟩ | ⟨hab, -⟩
    · simp [asOut] at hb
    · exact absurd (by simpa [asIn, asOut] using hab) (not_lt.mpr hgt.le)
    · exact absurd (by simpa [asIn, asOut] using hab) hgt.ne'
  · intro hmem
    rcases dirLayerEdges_sound hmem with ⟨-, hb⟩ | ⟨hab, -⟩ | ⟨hab, -⟩
    · simp [asOut] at hb
    · exact absurd (by simpa [asIn, asOut] using hab) (not_lt.mpr hgt.le)
    · exact absurd (by simpa [asIn, asOut] using hab) hgt.ne'
  · exact mem_dirLayerEdges.mpr ⟨u, hu, v, hv,
      by simp [dirPairEdges, hlt, asymm hlt]⟩
  · exact mem_dirLayerEdges.mpr ⟨u, hu, v, hv,
      by simp [dirPairEdges, hlt, asymm hlt]⟩
  · intro hmem
    rcases dirLayerEdges_sound hmem with ⟨hab, -⟩ | ⟨-, hb⟩ | ⟨hab, -⟩
    · exact absurd (by simpa [asIn, asOut] using hab) (not_lt.mpr hlt.le)
    · simp [asIn] at hb
    · exact absurd (by simpa [asIn, asOut] using hab) hlt.ne
  · intro hmem
    rcases dirLayerEdges_sound hmem with ⟨hab, -⟩ | ⟨-, hb⟩ | ⟨hab, -⟩
    · exact absurd (by simpa [asIn, asOut] using hab) (not_lt.mpr hlt.le)
    · simp [asIn] at hb
    · exact absurd (by simpa [asIn, asOut] using hab) hlt.ne
  · exact mem_dirLayerEdges.mpr ⟨u, hu, v, hv,
      by simp [dirPairEdges, heq, lt_irrefl]⟩
  · exact mem_dirLayerEdges.mpr ⟨u, hu, v, hv,
      by simp [dirPairEdges, heq, lt_irrefl]⟩
  · intro hmem
    rcases dirLayerEdges_sound hmem with ⟨hab, -⟩ | ⟨hab, -⟩ | ⟨-, hab⟩
    · exact absurd (by simpa [asIn, asOut] using hab)
        (by rw [heq]; exact lt_irrefl _)
    · exact absurd (by simpa [asIn, asOut] using hab)
        (by rw [heq]; exact lt_irrefl _)
    · simp [asIn, asOut] at hab
  · intro hmem
    rcases dirLayerEdges_sound hmem with ⟨hab, -⟩ | ⟨hab, -⟩ | ⟨-, hab⟩
    · exact absurd (by simpa [asIn, asOut] using hab)
        (by rw [heq]; exact lt_irrefl _)
    · exact absurd (by simpa [asIn, asOut] using hab)
        (by rw [heq]; exact lt_irrefl _)
    · simp [asIn, asOut] at hab

/-- C3 witness: two concrete one-state layers with `u.position = 1 >
v.position = 0`: the `u(in)→v(in)` weight-0 edge is present. -/
theorem claim_C3_witness :
    (GNode.stateNode (asIn (Trombone.State.mk 0 pitchA4 1 0 false)),
      GNode.stateNode (asIn (Trombone.State.mk 1 pitchA4 0 0 false)), (0 : ℝ))
      ∈ dirLayerEdges [Trombone.State.mk 0 pitchA4 1 0 false]
          [Trombone.State.mk 1 pitchA4 0 0 false] :=
  ((claim_C3_direction_edge_rules
    [Trombone.State.mk 0 pitchA4 1 0 false]
    [Trombone.State.mk 1 pitchA4 0 0 false]
    (Trombone.State.mk 0 pitchA4 1 0 false)
    (Trombone.State.mk 1 pitchA4 0 0 false)
    (by simp) (by simp)).1 (by norm_num)).1

/-- C7 counterexample: on the empty pitch sequence the distance-mode call
does raise (an `IndexError` from `states[0]` — the code has no
`EmptySequenceError` class), but a graph *has* been built before the error:
`DG` already holds the two virtual nodes START and END. -/
theorem claim_C7_counterexample :
    standardTrombone.minimize_slide_movement [] false
        = Except.error PyErr.indexError
      ∧ (standardTrombone.slide_movement_graph []).1
          = [GNode.startNode, GNode.endNode]
      ∧ (standardTrombone.slide_movement_graph []).1 ≠ [] := by
  have h2 : (standardTrombone.slide_movement_graph []).1
      = [GNode.startNode, GNode.endNode] := rfl
  refine ⟨rfl, h2, ?_⟩
  rw [h2]
  simp

/-- C7 (amended): for every optimization mode and every `round_positions`
flag, the empty pitch sequence raises an error immediately — an `IndexError`
from indexing the empty per-note state list (the code has no dedicated
`EmptySequenceError` class) — and at that point the graph contains exactly
the two virtual nodes START and END and no edges. -/
theorem claim_C7_empty_sequence_error (t : Trombone) (r : Bool) :
    t.minimize_slide_movement [] r = Except.error PyErr.indexError
      ∧ t.minimize_direction_changes [] r = Except.error PyErr.indexError
      ∧ t.minimize_partial_changes [] r = Except.error PyErr.indexError
      ∧ t.maximize_partial_changes [] r = Except.error PyErr.indexError
      ∧ t.slide_movement_graph [] = ([GNode.startNode, GNode.endNode], [])
      ∧ t.direction_changes_graph [] = ([GNode.startNode, GNode.endNode], [])
      ∧ t.partial_changes_graph [] = ([GNode.startNode, GNode.endNode], [])
      ∧ t.max_partial_changes_graph [] = ([GNode.startNode, GNode.endNode], []) :=
  ⟨rfl, rfl, rfl, rfl, rfl, rfl, rfl, rfl⟩

/-- C8: for every mode, running with `round_positions=True` returns exactly
the `round_positions=False` result with `roundState` mapped over it — the
path search is identical (rounding never influences the weights), and each
returned state keeps its pitch and partial and gets its position rounded to
the nearest integer. -/
theorem claim_C8_rounding_is_a_post_pass (t : Trombone)
    (pitches : List Pitch) :
    t.minimize_slide_movement pitches true
        = (t.minimize_slide_movement pitches false).map (List.map roundState)
      ∧ t.minimize_direction_changes pitches true
        = (t.minimize_direction_changes pitches false).map
            (List.map roundState)
      ∧ t.minimize_partial_changes pitches true
        = (t.minimize_partial_changes pitches false).map
            (List.map roundState)
      ∧ t.maximize_partial_changes pitches true
        = (t.maximize_partial_changes pitches false).map
            (List.map roundState) := by
  refine ⟨?_, ?_, ?_, ?_⟩
  · unfold Trombone.minimize_slide_movement
    cases t.get_states_of_pitches pitches false with
    | error e => rfl
    | ok states =>
      cases he : states.isEmpty with
      | true => simp [he, Except.map]
      | false =>
        simp only [he]
        cases solveLayered states alwaysEdge distanceWeight with
        | error e => rfl
        | ok path => simp [Except.map]
  · unfold Trombone.minimize_direction_changes
    cases t.get_states_of_pitches pitches false with
    | error e => rfl
    | ok in_states =>
      cases t.get_states_of_pitches pitches true with
      | error e => rfl
      | ok other =>
        cases he : in_states.isEmpty with
        | true => simp [he, Except.map]
        | false =>
          simp only [he]
          cases solveLayered (in_states.map fun layer => layer ++ layer.map asOut)
            (fun u v => (dirWeight u v).isSome)
            (fun u v => (dirWeight u v).getD 0) with
          | error e => rfl
          | ok path => simp [Except.map]
  · unfold Trombone.minimize_partial_changes
    cases t.get_states_of_pitches pitches false with
    | error e => rfl
    | ok states =>
      cases he : states.isEmpty with
      | true => simp [he, Except.map]
      | false =>
        simp only [he]
        cases solveLayered states alwaysEdge glissWeight with
        | error e => rfl
        | ok path => simp [Except.map]
  · unfold Trombone.maximize_partial_changes
    cases t.get_states_of_pitches pitches false with
    | error e => rfl
    | ok states =>
      cases he : states.isEmpty with
      | true => simp [he, Except.map]
      | false =>
        simp only [he]
        cases solveLayered states alwaysEdge legatoWeight with
        | error e => rfl
        | ok path => simp [Except.map]

/-- C9: the optimizer is a pure function of its inputs: a second call with
the identical trombone configuration, pitch sequence, mode and rounding flag
is the same computation and yields the identical output, including the
tie-break among equal-cost paths (the solver deterministically takes the
first minimum in the fixed enumeration order of candidate paths). -/
theorem claim_C9_identical_runs (t : Trombone) (pitches : List Pitch)
    (r : Bool) :
    t.minimize_slide_movement pitches r = t.minimize_slide_movement pitches r
      ∧ t.minimize_direction_changes pitches r
        = t.minimize_direction_changes pitches r
      ∧ t.minimize_partial_changes pitches r
        = t.minimize_partial_changes pitches r
      ∧ t.maximize_partial_changes pitches r
        = t.maximize_partial_changes pitches r :=
  ⟨rfl, rfl, rfl, rfl⟩

/-- In the single-tag modes every cross-product edge exists, so every
section of the layers is a valid path. -/
theorem chainOk_always (l : List Trombone.State) :
    chainOk alwaysEdge l = true := by
  induction l with
  | nil => rfl
  | cons a t ih =>
    cases t with
    | nil => rfl
    | cons b r =>
      simp only [chainOk, alwaysEdge, Bool.true_and]
      exact ih

/-- What a successful `solveLayered` returns: a valid path of minimum total
weight among all valid paths. -/
theorem solveLayered_ok {α : Type} {layers : List (List α)}
    {ok : α → α → Bool} {w : α → α → ℝ} {path : List α}
    (h : solveLayered layers ok w = Except.ok path) :
    path ∈ (layers.sections.filter (chainOk ok))
      ∧ ∀ alt ∈ layers.sections.filter (chainOk ok),
          pathCost w path ≤ pathCost w alt := by
  unfold solveLayered at h
  split at h
  next path' heq =>
    have hpp : path' = path := by
      injection h
    subst hpp
    refine ⟨List.argmin_mem (Option.mem_def.mpr heq), fun alt ha => ?_⟩
    exact List.le_of_mem_argmin ha (Option.mem_def.mpr heq)
  next heq =>
    exact absurd h (by simp)

/-- C1: for mode=distance, the returned path is a selection of one candidate
state per note, and its total slide travel `Σ|posᵢ−posᵢ₊₁|` is at most the
total travel of every alternative selection drawn from the same per-note
candidate sets. -/
theorem claim_C1_distance_optimality (t : Trombone) (pitches : List Pitch)
    (states : List (List Trombone.State)) (path : List Trombone.State)
    (hs : t.get_states_of_pitches pitches false = Except.ok states)
    (hp : t.minimize_slide_movement pitches false = Except.ok path) :
    path ∈ states.sections
      ∧ ∀ alt ∈ states.sections,
          pathCost distanceWeight path ≤ pathCost distanceWeight alt := by
  unfold Trombone.minimize_slide_movement at hp
  rw [hs] at hp
  dsimp only at hp
  have hsol : solveLayered states alwaysEdge distanceWeight
      = Except.ok path := by
    by_cases he : states.isEmpty
    · rw [if_pos he] at hp
      exact absurd hp (by simp)
    · rw [if_neg he] at hp
      split at hp
      next heq => exact absurd hp (by simp)
      next path' heq =>
        rw [heq]
        simpa using hp
  have hfil : (states.sections).filter (chainOk alwaysEdge)
      = states.sections :=
    List.filter_eq_self.mpr fun a _ => chainOk_always a
  obtain ⟨hmem, hle⟩ := solveLayered_ok hsol
  rw [hfil] at hmem hle
  exact ⟨hmem, hle⟩

/-- The single candidate state of `Bb1` on the standard trombone: partial 0
at the position the code computes for it (namely 0). -/
noncomputable def bb1State : Trombone.State :=
  Trombone.State.mk 0 TROMBONE_FUNDAMENTAL
    (standardTrombone.get_position TROMBONE_FUNDAMENTAL 0) 0 false

theorem standard_position_bb1_zero :
    standardTrombone.get_position TROMBONE_FUNDAMENTAL 0 = 0 := by
  rw [get_position_eq]
  norm_num [Pitch.get_semitones, TROMBONE_FUNDAMENTAL, standardTrombone]

theorem stopPartial_bb1 :
    standardTrombone.stopPartial TROMBONE_FUNDAMENTAL = 1 := by
  rw [Trombone.stopPartial, Nat.find_eq_iff]
  refine ⟨?_, ?_⟩
  · rw [get_position_eq]
    have h2 : ((1 : ℕ) : ℝ) + 1 = 2 := by norm_num
    rw [h2, Real.logb_self_eq_one (by norm_num)]
    norm_num [Pitch.get_semitones, TROMBONE_FUNDAMENTAL, standardTrombone,
      TROMBONE_SLIDE_LENGTH]
  · intro m hm
    interval_cases m
    rw [not_lt, standard_position_bb1_zero]
    norm_num [standardTrombone, TROMBONE_SLIDE_LENGTH]

theorem positions_partials_bb1 :
    standardTrombone.get_positions_and_partials TROMBONE_FUNDAMENTAL
      = ([standardTrombone.get_position TROMBONE_FUNDAMENTAL 0], [0]) := by
  unfold Trombone.get_positions_and_partials
  rw [stopPartial_bb1]
  have h0 : (-(1 / 2 : ℝ)
      < standardTrombone.get_position TROMBONE_FUNDAMENTAL 0) := by
    rw [standard_position_bb1_zero]
    norm_num
  have hf : (List.range 1).filter
      (fun k => decide (-(1 / 2 : ℝ)
        < standardTrombone.get_position TROMBONE_FUNDAMENTAL k)) = [0] := by
    have hr : List.range 1 = [0] := by simp [List.range_succ]
    rw [hr, List.filter_cons]
    simp only [List.filter_nil]
    rw [if_pos (decide_eq_true h0)]
  rw [hf]
  rfl

theorem states_bb1 :
    standardTrombone.get_states_of_pitch 0 TROMBONE_FUNDAMENTAL false
      = Except.ok [bb1State] := by
  unfold Trombone.get_states_of_pitch
  rw [positions_partials_bb1]
  rfl

theorem states_list_bb1 :
    standardTrombone.get_states_of_pitches [TROMBONE_FUNDAMENTAL] false
      = Except.ok [[bb1State]] := by
  show standardTrombone.statesFrom false 0 [TROMBONE_FUNDAMENTAL]
      = Except.ok [[bb1State]]
  unfold Trombone.statesFrom
  rw [states_bb1]
  rfl

theorem minimize_bb1 :
    standardTrombone.minimize_slide_movement [TROMBONE_FUNDAMENTAL] false
      = Except.ok [bb1State] := by
  unfold Trombone.minimize_slide_movement
  rw [states_list_bb1]
  rfl

/-- C1 witness: on the one-note sequence `[Bb1]` the optimizer returns the
single section `[bb1State]`, which is optimal among all sections. -/
theorem claim_C1_witness :
    [bb1State] ∈ ([[bb1State]] : List (List Trombone.State)).sections
      ∧ pathCost distanceWeight [bb1State]
        ≤ pathCost distanceWeight [bb1State] := by
  have h := claim_C1_distance_optimality standardTrombone
    [TROMBONE_FUNDAMENTAL] [[bb1State]] [bb1State] states_list_bb1 minimize_bb1
  exact ⟨h.1, h.2 [bb1State] h.1⟩

/-- C6 witness: with `slide_length = 0` the fundamental pitch `Bb1` *is*
playable (partial 0 at position 0), so no `ValueError` is raised for it. -/
theorem claim_C6_witness :
    ¬ (zeroTrombone.get_states_of_pitch 0 TROMBONE_FUNDAMENTAL false
        = Except.error (PyErr.valueError TROMBONE_FUNDAMENTAL)) := by
  intro h
  refine (claim_C6_unplayable_iff zeroTrombone 0 TROMBONE_FUNDAMENTAL
    false).mp h ⟨0, ?_, ?_⟩
  · rw [get_position_eq]
    norm_num [Pitch.get_semitones, TROMBONE_FUNDAMENTAL, zeroTrombone]
  · rw [get_position_eq]
    norm_num [Pitch.get_semitones, TROMBONE_FUNDAMENTAL, zeroTrombone]

end Pybone
